import Mathlib

/-!
Verification of the SECsearch transformation pipeline (src/core/sec.py).

The Python module restructures a raw SEC "company facts" document (a nested
JSON object keyed taxonomy → tag → unit → list of observations) into a
per-concept document with parallel lists of raw filings and generated
natural-language fact sentences.

Embedding conventions:
  - Python dicts are modelled as association lists of (key, value) pairs in
    insertion order; Python guarantees key uniqueness, and dict subscript
    access is modelled by first-match lookup (dictGet) while dict assignment
    is modelled by in-place update-or-append (dictInsert), matching CPython
    semantics (updating an existing key keeps its position).
  - Python integers are Lean Int; strings are Lean String (ASCII scope:
    the tags, units and dates handled by this program are ASCII, so
    Char.isUpper and String.trim coincide with the Python predicates).
  - Code that raises KeyError on a missing key is modelled with Option
    (for the concept lookups) or Except (for get_tags, whose failure the
    design document names MalformedDocument).
-/

set_option maxRecDepth 4096

namespace SECsearch

/-- One filed observation as it appears in the raw document under a unit:
the Python dict with keys val, fy, fp, form, filed. -/
structure Observation where
  val : Int
  fy : Int
  fp : String
  form : String
  filed : String
deriving DecidableEq, Repr

/-- The value stored at company_data.facts[taxonomy][tag] in the raw
document: label, description and the units mapping (unit name → list of
observations, in insertion order). -/
structure ConceptData where
  label : String
  description : String
  units : List (String × List Observation)
deriving DecidableEq, Repr

/-- The taxonomy level of the facts section: tag → concept data. -/
abbrev TagMap := List (String × ConceptData)

/-- The facts section of the raw document: taxonomy → tag map. -/
abbrev Facts := List (String × TagMap)

/-- The raw company_data JSON object. Only the top-level key structure
matters to the code under verification: the facts key may be present or
absent (get_tags raises KeyError when it is absent). -/
structure CompanyData where
  entries : List (String × Facts)
deriving DecidableEq, Repr

/-- One record of the company reference list produced by
get_company_identifiers: the dict with keys name, ticker, cik. -/
structure Company where
  name : String
  ticker : String
  cik : String
deriving DecidableEq, Repr

/-- One element of the filings list of a concept record, as appended by
make_concept_info. -/
structure FlattenedFiling where
  unit : String
  value : Int
  fiscal_year : Int
  fiscal_period : String
  form_type : String
  date_filed : String
deriving DecidableEq, Repr

/-- The concept dict assembled by make_concept_info. -/
structure Concept where
  tag : String
  taxonomy : String
  label : String
  description : String
  facts : List String
  filings : List FlattenedFiling
deriving DecidableEq, Repr

/-- Python dict subscript access d[k]: first entry whose key equals k
(keys are unique in an actual dict, so first-match is exact). -/
def dictGet (k : String) : List (String × α) → Option α
  | [] => none
  | (k2, v) :: rest => if k2 = k then some v else dictGet k rest

/-- Python dict assignment d[k] = v: update the entry in place when the key
exists, append a fresh entry otherwise (CPython keeps the position of an
updated key). -/
def dictInsert (k : String) (v : α) : List (String × α) → List (String × α)
  | [] => [(k, v)]
  | (k2, v2) :: rest =>
    if k2 = k then (k, v) :: rest else (k2, v2) :: dictInsert k v rest

/-- Embedding of get_cik_from_ticker (src/core/sec.py lines 55-70): scan the
company list in order and return the cik of the first company whose ticker
equals the requested ticker; None when no company matches. -/
def get_cik_from_ticker (ticker : String) : List Company → Option String
  | [] => none
  | company :: rest =>
    if company.ticker = ticker then some company.cik
    else get_cik_from_ticker ticker rest

/-- Embedding of the cik padding str(value.cik_str).zfill(10) used by
get_company_identifiers: left-pad with zeros to the target width (the cik
strings are unsigned digit strings, so the sign handling of zfill is moot). -/
def zfill (width : Nat) (s : String) : String :=
  if width ≤ s.length then s
  else String.mk (List.replicate (width - s.length) '0') ++ s

/-- Embedding of Python str.lower for the ASCII strings this program
handles: lower-case every character. -/
def lower_string (s : String) : String :=
  String.mk (s.toList.map Char.toLower)

/-- Embedding of the per-company normalisation step of
get_company_identifiers (src/core/sec.py lines 36-40): build the company
dict from the raw title/ticker/cik fields, lower-casing the ticker and
zero-padding the cik to ten characters. -/
def normalize_company (title ticker cik_str : String) : Company :=
  { name := title, ticker := lower_string ticker, cik := zfill 10 cik_str }

/-- Embedding of get_tags (src/core/sec.py lines 93-103): look up the
facts section (KeyError, alias MalformedDocument, when absent) and map each
taxonomy to the list of its tag keys, in the document key order. -/
def get_tags (company_data : CompanyData) :
    Except String (List (String × List String)) :=
  match dictGet "facts" company_data.entries with
  | none => Except.error "KeyError: facts"
  | some facts => Except.ok (facts.map (fun p => (p.1, p.2.map Prod.fst)))

/-- Embedding of Python str.strip over the character list: drop whitespace
characters from both ends. -/
def strip_chars (cs : List Char) : List Char :=
  ((cs.dropWhile Char.isWhitespace).reverse.dropWhile Char.isWhitespace).reverse

/-- Embedding of the tag humanisation step of make_fact (src/core/sec.py
lines 119-121): emit a space before every upper-case character, then strip
leading and trailing whitespace. -/
def humanize (tag : String) : String :=
  String.mk (strip_chars (tag.toList.flatMap
    (fun char => if char.isUpper then [' ', char] else [char])))

/-- Embedding of the period normalisation step of make_fact (src/core/sec.py
lines 122-123): the literal FY becomes Full Year, every other period string
passes through unchanged. -/
def normalize_period (fiscal_period : String) : String :=
  if fiscal_period = "FY" then "Full Year" else fiscal_period

/-- Helper for format_value: working over the reversed digit list, insert a
comma before every further group of three digits. -/
def groupRev : List Char → Nat → List Char
  | [], _ => []
  | c :: cs, n =>
    if n ≠ 0 ∧ n % 3 = 0 then ',' :: c :: groupRev cs (n + 1)
    else c :: groupRev cs (n + 1)

/-- Embedding of the value formatting step of make_fact (src/core/sec.py
line 124), the Python comma format spec: decimal digits with a comma
between each group of three, a leading minus sign for negative values. -/
def format_value (value : Int) : String :=
  let digits := Nat.repr value.natAbs
  let grouped := String.mk ((groupRev digits.toList.reverse 0).reverse)
  if value < 0 then "-" ++ grouped else grouped

/-- Embedding of make_fact (src/core/sec.py lines 106-130): assemble the
fact sentence from the humanised tag, the normalised period, the
comma-formatted value and the remaining fields verbatim. -/
def make_fact (tag : String) (value : Int) (unit : String) (fiscal_year : Int)
    (fiscal_period : String) (form_type : String) (date_filed : String) :
    String :=
  "The reported \'" ++ humanize tag ++ "\' in " ++ toString fiscal_year ++
    " (" ++ normalize_period fiscal_period ++ ") filed in a " ++ form_type ++
    " form on " ++ date_filed ++ " was " ++ format_value value ++ " " ++
    unit ++ "."

/-- The lookup chain company_data.facts[taxonomy][tag] performed by
make_concept_info; None models the KeyError along any step. -/
def findConcept (company_data : CompanyData) (taxonomy tag : String) :
    Option ConceptData :=
  match dictGet "facts" company_data.entries with
  | none => none
  | some facts =>
    match dictGet taxonomy facts with
    | none => none
    | some tagMap => dictGet tag tagMap

/-- The filings entry make_concept_info appends for one observation under
one unit (src/core/sec.py lines 156-163). -/
def flatten_filing (unit : String) (filing : Observation) : FlattenedFiling :=
  { unit := unit, value := filing.val, fiscal_year := filing.fy,
    fiscal_period := filing.fp, form_type := filing.form,
    date_filed := filing.filed }

/-- The inner loop of make_concept_info over the observations of one unit:
append the generated sentence to the facts list and the flattened filing to
the filings list, in lockstep. -/
def appendUnitFilings (tag unit : String) (obs : List Observation)
    (acc : List String × List FlattenedFiling) :
    List String × List FlattenedFiling :=
  obs.foldl
    (fun acc filing =>
      (acc.1 ++ [make_fact tag filing.val unit filing.fy filing.fp
          filing.form filing.filed],
       acc.2 ++ [flatten_filing unit filing]))
    acc

/-- Embedding of make_concept_info (src/core/sec.py lines 133-166): resolve
the concept (None models the KeyError on a missing key), then fold the
two-level loop over units and observations, starting from empty facts and
filings lists. -/
def make_concept_info (company_data : CompanyData) (tag taxonomy : String) :
    Option Concept :=
  match findConcept company_data taxonomy tag with
  | none => none
  | some cd =>
    let fl := cd.units.foldl
      (fun acc p => appendUnitFilings tag p.1 p.2 acc) ([], [])
    some { tag := tag, taxonomy := taxonomy, label := cd.label,
           description := cd.description, facts := fl.1, filings := fl.2 }

/-- The inner loop of make_concept_filings over the tags of one taxonomy:
build each concept (None propagates the KeyError) and assign it into the
output dict keyed by tag alone. -/
def insertTagConcepts (company_data : CompanyData) (taxonomy : String) :
    List String → List (String × Concept) → Option (List (String × Concept))
  | [], acc => some acc
  | tag :: rest, acc =>
    match make_concept_info company_data tag taxonomy with
    | none => none
    | some c => insertTagConcepts company_data taxonomy rest (dictInsert tag c acc)

/-- The outer loop of make_concept_filings over the taxonomies of the tag
mapping. -/
def insertAllTags (company_data : CompanyData) :
    List (String × List String) → List (String × Concept) →
    Option (List (String × Concept))
  | [], acc => some acc
  | (taxonomy, tags_list) :: rest, acc =>
    match insertTagConcepts company_data taxonomy tags_list acc with
    | none => none
    | some acc2 => insertAllTags company_data rest acc2

/-- Embedding of make_concept_filings (src/core/sec.py lines 169-180):
fold the enumerated tag mapping into an output dict, taxonomy by taxonomy,
tag by tag, starting from the empty dict. -/
def make_concept_filings (company_data : CompanyData)
    (all_tags : List (String × List String)) :
    Option (List (String × Concept)) :=
  insertAllTags company_data all_tags []

/-- Modelled from the spec: the tag humanisation rule stated in the design
document, insert a single space before every upper-case character (the
trim is applied on the string afterwards, as in the code). Used to compare
the code embedding humanize against the specified rule. -/
def spec_humanized : List Char → List Char
  | [] => []
  | c :: cs =>
    if c.isUpper then ' ' :: c :: spec_humanized cs
    else c :: spec_humanized cs

/-- The sentence make_fact produces for a flattened filing: the rendering
that the facts list of a concept record is made of. -/
def renderFiling (tag : String) (f : FlattenedFiling) : String :=
  make_fact tag f.value f.unit f.fiscal_year f.fiscal_period f.form_type
    f.date_filed

/-- The flattened filings of a units mapping, unit by unit, observation by
observation, in document order: the filings list make_concept_info builds. -/
def filingsList (units : List (String × List Observation)) :
    List FlattenedFiling :=
  units.flatMap (fun p => p.2.map (flatten_filing p.1))

/-- The taxonomy that appears last in iteration order among those whose
enumerated tag list contains the given tag; none when no taxonomy lists
the tag. This is the taxonomy whose concept record wins under the
last-write-wins collision policy of make_concept_filings. -/
def lastTaxFor (tag : String) : List (String × List String) → Option String
  | [] => none
  | p :: rest =>
    match lastTaxFor tag rest with
    | some tx => some tx
    | none => if tag ∈ p.2 then some p.1 else none

/-- The single-concept raw document of the end-to-end scenario in the
design document: taxonomy us-gaap, tag AssetsCurrent, one USD observation. -/
def exampleDoc : CompanyData :=
  ⟨[("facts", [("us-gaap",
      [("AssetsCurrent",
        { label := "Current Assets", description := "Total current assets",
          units := [("USD", [{ val := 5000000, fy := 2023, fp := "FY",
                               form := "10-K", filed := "2024-02-01" }])] })])])]⟩

/-- The concept record the pipeline assembles for the example document. -/
def exampleConcept : Concept :=
  { tag := "AssetsCurrent", taxonomy := "us-gaap",
    label := "Current Assets", description := "Total current assets",
    facts := ["The reported \'Assets Current\' in 2023 (Full Year) filed in a 10-K form on 2024-02-01 was 5,000,000 USD."],
    filings := [{ unit := "USD", value := 5000000, fiscal_year := 2023,
                  fiscal_period := "FY", form_type := "10-K",
                  date_filed := "2024-02-01" }] }

/-- A facts section in which the tag T appears under two taxonomies with
different labels, exercising the cross-taxonomy collision policy. -/
def twoTaxFacts : Facts :=
  [("tax1", [("T", { label := "first", description := "d1", units := [] })]),
   ("tax2", [("T", { label := "second", description := "d2", units := [] })])]

/-- The raw document wrapping twoTaxFacts. -/
def twoTaxDoc : CompanyData := ⟨[("facts", twoTaxFacts)]⟩

/-- A raw document whose single concept has one unit holding no
observations at all. -/
def emptyUnitsDoc : CompanyData :=
  ⟨[("facts", [("us-gaap",
      [("Assets", { label := "Assets", description := "All assets",
                    units := [("USD", []), ("EUR", [])] })])])]⟩

/-! Supporting lemmas about the dict model. -/

theorem dictGet_nil {α : Type} (k : String) :
    dictGet k ([] : List (String × α)) = none := rfl

theorem dictGet_isSome_iff {α : Type} (k : String)
    (d : List (String × α)) :
    (dictGet k d).isSome ↔ k ∈ d.map Prod.fst := by
  induction d with
  | nil => simp [dictGet]
  | cons p rest ih =>
    obtain ⟨k2, v⟩ := p
    by_cases hk : k2 = k
    · subst hk; simp [dictGet]
    · simp [dictGet, hk, ih, Ne.symm hk]

theorem dictGet_of_nodup {α : Type} {k : String} {v : α}
    {d : List (String × α)} (hnd : (d.map Prod.fst).Nodup)
    (hmem : (k, v) ∈ d) : dictGet k d = some v := by
  induction d with
  | nil => cases hmem
  | cons p rest ih =>
    obtain ⟨k2, v2⟩ := p
    simp only [List.map_cons, List.nodup_cons] at hnd
    rcases List.mem_cons.mp hmem with heq | htail
    · cases heq
      simp [dictGet]
    · have hk : k2 ≠ k := by
        intro h
        exact hnd.1 (List.mem_map.mpr ⟨(k, v), htail, h.symm⟩)
      simp [dictGet, hk, ih hnd.2 htail]

theorem dictGet_dictInsert_self {α : Type} (k : String) (v : α)
    (d : List (String × α)) : dictGet k (dictInsert k v d) = some v := by
  induction d with
  | nil => simp [dictGet, dictInsert]
  | cons p rest ih =>
    obtain ⟨k2, v2⟩ := p
    by_cases hk : k2 = k
    · subst hk; simp [dictInsert, dictGet]
    · simp [dictInsert, dictGet, hk, ih]

theorem dictGet_dictInsert_ne {α : Type} {k k2 : String} (hne : k2 ≠ k)
    (v : α) (d : List (String × α)) :
    dictGet k2 (dictInsert k v d) = dictGet k2 d := by
  have h1 : ¬ k = k2 := fun h => hne h.symm
  induction d with
  | nil => simp [dictGet, dictInsert, h1]
  | cons p rest ih =>
    obtain ⟨k3, v3⟩ := p
    by_cases hk : k3 = k
    · have h3 : ¬ k3 = k2 := by rw [hk]; exact h1
      simp [dictInsert, dictGet, hk, h1, h3]
    · by_cases hk2 : k3 = k2
      · simp [dictInsert, dictGet, hk, hk2, hne]
      · simp [dictInsert, dictGet, hk, hk2, ih]

/-! Supporting lemmas about the identifier resolver. -/

theorem get_cik_eq_none_of_no_match (ticker : String) :
    ∀ companies : List Company, (∀ c ∈ companies, c.ticker ≠ ticker) →
      get_cik_from_ticker ticker companies = none := by
  intro companies h
  induction companies with
  | nil => rfl
  | cons c rest ih =>
    have hc : c.ticker ≠ ticker := h c (List.mem_cons_self c rest)
    simp only [get_cik_from_ticker, hc, if_false]
    exact ih (fun c2 hc2 => h c2 (List.mem_cons_of_mem c hc2))

theorem get_cik_first_of_prefix_no_match (ticker : String)
    (pre : List Company) (c : Company) (post : List Company)
    (hpre : ∀ c2 ∈ pre, c2.ticker ≠ ticker) (hc : c.ticker = ticker) :
    get_cik_from_ticker ticker (pre ++ c :: post) = some c.cik := by
  induction pre with
  | nil => simp [get_cik_from_ticker, hc]
  | cons p rest ih =>
    have hp : p.ticker ≠ ticker := hpre p (List.mem_cons_self p rest)
    simp only [List.cons_append, get_cik_from_ticker, hp, if_false]
    exact ih (fun c2 hc2 => hpre c2 (List.mem_cons_of_mem p hc2))

/-! Claim theorems for the simpler components. -/

theorem flatMap_eq_spec_humanized (cs : List Char) :
    (cs.flatMap fun char => if char.isUpper then [' ', char] else [char]) =
      spec_humanized cs := by
  induction cs with
  | nil => rfl
  | cons c cs ih =>
    by_cases hc : c.isUpper <;> simp [spec_humanized, hc, ih]

/-- C4: the tag humanisation step of the fact sentence generator inserts
exactly one space before each upper-case character (formalised by the
spec-side recursion spec_humanized) and trims the ends; in particular
AssetsCurrent humanises to Assets Current, and the all-caps EPS splits
into E P S. -/
theorem humanize_spec :
    (∀ tag : String,
      humanize tag = String.mk (strip_chars (spec_humanized tag.toList))) ∧
    humanize "AssetsCurrent" = "Assets Current" ∧
    humanize "EPS" = "E P S" := by
  refine ⟨fun tag => ?_, by decide, by decide⟩
  unfold humanize
  rw [flatMap_eq_spec_humanized]

/-- C5: the value formatting step renders integers with thousands-grouping
separators: 1234567 becomes 1,234,567, zero becomes 0, and negative values
keep their sign, -2500 becoming -2,500. -/
theorem format_value_grouping :
    format_value 1234567 = "1,234,567" ∧ format_value 0 = "0" ∧
    format_value (-2500) = "-2,500" :=
  ⟨rfl, rfl, rfl⟩

/-- C6: the fact sentence generator is deterministic: two invocations with
equal arguments return equal strings. -/
theorem make_fact_deterministic
    (t1 t2 : String) (v1 v2 : Int) (u1 u2 : String) (y1 y2 : Int)
    (p1 p2 f1 f2 d1 d2 : String)
    (ht : t1 = t2) (hv : v1 = v2) (hu : u1 = u2) (hy : y1 = y2)
    (hp : p1 = p2) (hf : f1 = f2) (hd : d1 = d2) :
    make_fact t1 v1 u1 y1 p1 f1 d1 = make_fact t2 v2 u2 y2 p2 f2 d2 := by
  subst ht hv hu hy hp hf hd
  rfl

/-- Witness for C6 at the concrete arguments of the end-to-end scenario. -/
theorem make_fact_deterministic_witness :
    make_fact "AssetsCurrent" 5000000 "USD" 2023 "FY" "10-K" "2024-02-01" =
      make_fact "AssetsCurrent" 5000000 "USD" 2023 "FY" "10-K" "2024-02-01" :=
  make_fact_deterministic "AssetsCurrent" "AssetsCurrent" 5000000 5000000
    "USD" "USD" 2023 2023 "FY" "FY" "10-K" "10-K" "2024-02-01" "2024-02-01"
    rfl rfl rfl rfl rfl rfl rfl

/-- C7: the identifier resolver returns the cik of the first company in
list order whose ticker equals the requested ticker, and returns None
rather than failing when no company matches; any duplicate occurrences
after the first match are ignored. -/
theorem get_cik_from_ticker_first_match (ticker : String) :
    (∀ companies : List Company,
      (∀ c ∈ companies, c.ticker ≠ ticker) →
      get_cik_from_ticker ticker companies = none) ∧
    (∀ (pre : List Company) (c : Company) (post : List Company),
      (∀ c2 ∈ pre, c2.ticker ≠ ticker) → c.ticker = ticker →
      get_cik_from_ticker ticker (pre ++ c :: post) = some c.cik) :=
  ⟨get_cik_eq_none_of_no_match ticker,
   get_cik_first_of_prefix_no_match ticker⟩

/-- Witness for C7: with a duplicate ticker later in the list, the first
matching cik is returned. -/
theorem get_cik_from_ticker_first_match_witness :
    get_cik_from_ticker "msft"
      [⟨"Apple", "aapl", "1"⟩, ⟨"Microsoft", "msft", "2"⟩,
       ⟨"Dup", "msft", "3"⟩] = some "2" :=
  (get_cik_from_ticker_first_match "msft").2 [⟨"Apple", "aapl", "1"⟩]
    ⟨"Microsoft", "msft", "2"⟩ [⟨"Dup", "msft", "3"⟩]
    (by decide) rfl

/-- C9: the identifier resolver compares tickers verbatim and never
lower-cases its input: an input ticker containing an upper-case character
never matches a reference list whose tickers contain no upper-case
characters, as produced by get_company_identifiers, so the result is
None even when the lower-cased form is present. -/
theorem get_cik_from_ticker_case_sensitive
    (ticker : String) (companies : List Company)
    (hupper : ∃ c ∈ ticker.toList, c.isUpper)
    (hlower : ∀ co ∈ companies, ∀ ch ∈ co.ticker.toList, ch.isUpper = false) :
    get_cik_from_ticker ticker companies = none := by
  apply get_cik_eq_none_of_no_match
  intro co hco heq
  obtain ⟨c, hc, hcu⟩ := hupper
  have : c.isUpper = false := hlower co hco c (heq ▸ hc)
  rw [this] at hcu
  cases hcu

/-- Witness for C9: the upper-case ticker AAPL finds nothing in a list
holding its lower-cased form aapl. -/
theorem get_cik_from_ticker_case_sensitive_witness :
    get_cik_from_ticker "AAPL" [⟨"Apple", "aapl", "0000320193"⟩] = none :=
  get_cik_from_ticker_case_sensitive "AAPL" [⟨"Apple", "aapl", "0000320193"⟩]
    (by decide) (by decide)

/-- C8: the tag enumerator fails (with the condition the design document
calls MalformedDocument) exactly when the document lacks a top-level facts
section, and on a document holding one it returns the mapping that sends
each taxonomy, in document key order, to the ordered list of its tag keys. -/
theorem get_tags_spec :
    (∀ cd : CompanyData, dictGet "facts" cd.entries = none →
      get_tags cd = Except.error "KeyError: facts") ∧
    (∀ (cd : CompanyData) (facts : Facts),
      dictGet "facts" cd.entries = some facts →
      get_tags cd = Except.ok (facts.map (fun p => (p.1, p.2.map Prod.fst)))) := by
  constructor
  · intro cd h
    simp [get_tags, h]
  · intro cd facts h
    simp [get_tags, h]

/-- Witness for C8: the empty document fails, the example document
enumerates its single taxonomy and tag. -/
theorem get_tags_spec_witness :
    get_tags ⟨[]⟩ = Except.error "KeyError: facts" ∧
    get_tags exampleDoc = Except.ok [("us-gaap", ["AssetsCurrent"])] :=
  ⟨get_tags_spec.1 ⟨[]⟩ rfl,
   get_tags_spec.2 exampleDoc
     [("us-gaap",
       [("AssetsCurrent",
         { label := "Current Assets", description := "Total current assets",
           units := [("USD", [{ val := 5000000, fy := 2023, fp := "FY",
                                form := "10-K", filed := "2024-02-01" }])] })])]
     rfl⟩

/-- C2: on the end-to-end scenario document, the enumerated tags are
us-gaap with AssetsCurrent, and the assembled concept record for
AssetsCurrent carries exactly the one flattened filing and the one
generated sentence required by the design document. -/
theorem assembled_record_example :
    get_tags exampleDoc = Except.ok [("us-gaap", ["AssetsCurrent"])] ∧
    make_concept_filings exampleDoc [("us-gaap", ["AssetsCurrent"])] =
      some [("AssetsCurrent", exampleConcept)] ∧
    exampleConcept.filings =
      [{ unit := "USD", value := 5000000, fiscal_year := 2023,
         fiscal_period := "FY", form_type := "10-K",
         date_filed := "2024-02-01" }] ∧
    exampleConcept.facts =
      ["The reported \'Assets Current\' in 2023 (Full Year) filed in a 10-K form on 2024-02-01 was 5,000,000 USD."] :=
  ⟨rfl, rfl, rfl, rfl⟩

/-! Supporting lemmas about the concept builder loops. -/

theorem appendUnitFilings_eq (tag unit : String) (obs : List Observation)
    (acc : List String × List FlattenedFiling) :
    appendUnitFilings tag unit obs acc =
      (acc.1 ++ obs.map (fun f =>
          make_fact tag f.val unit f.fy f.fp f.form f.filed),
       acc.2 ++ obs.map (flatten_filing unit)) := by
  induction obs generalizing acc with
  | nil => simp [appendUnitFilings]
  | cons f fs ih =>
    show appendUnitFilings tag unit fs _ = _
    rw [ih]
    simp

theorem unitsFold_eq (tag : String)
    (units : List (String × List Observation))
    (acc : List String × List FlattenedFiling) :
    units.foldl (fun acc p => appendUnitFilings tag p.1 p.2 acc) acc =
      (acc.1 ++ (filingsList units).map (renderFiling tag),
       acc.2 ++ filingsList units) := by
  induction units generalizing acc with
  | nil => simp [filingsList]
  | cons p ps ih =>
    rw [List.foldl_cons, appendUnitFilings_eq, ih]
    simp [filingsList, List.map_map]
    intro f _
    rfl

theorem make_concept_info_eq (company_data : CompanyData)
    (tag taxonomy : String) (cd : ConceptData)
    (h : findConcept company_data taxonomy tag = some cd) :
    make_concept_info company_data tag taxonomy =
      some { tag := tag, taxonomy := taxonomy, label := cd.label,
             description := cd.description,
             facts := (filingsList cd.units).map (renderFiling tag),
             filings := filingsList cd.units } := by
  unfold make_concept_info
  rw [h]
  simp [unitsFold_eq]

theorem filingsList_eq_nil (units : List (String × List Observation))
    (h : ∀ p ∈ units, p.2 = ([] : List Observation)) :
    filingsList units = [] := by
  induction units with
  | nil => rfl
  | cons p ps ih =>
    have hp : p.2 = [] := h p (List.mem_cons_self p ps)
    have hps := ih (fun q hq => h q (List.mem_cons_of_mem p hq))
    unfold filingsList at hps ⊢
    rw [List.flatMap_cons, hp, hps]
    rfl

/-- C1: every concept record the concept builder returns has facts and
filings lists of the same length, and the sentence at each index is
exactly make_fact applied to the observation data stored in the flattened
filing at the same index. -/
theorem make_concept_info_aligned (company_data : CompanyData)
    (tag taxonomy : String) (c : Concept)
    (h : make_concept_info company_data tag taxonomy = some c) :
    c.facts.length = c.filings.length ∧
    ∀ i (_hf : i < c.facts.length) (hg : i < c.filings.length),
      c.facts[i] = make_fact tag c.filings[i].value c.filings[i].unit
        c.filings[i].fiscal_year c.filings[i].fiscal_period
        c.filings[i].form_type c.filings[i].date_filed := by
  cases hfc : findConcept company_data taxonomy tag with
  | none => rw [make_concept_info, hfc] at h; cases h
  | some cd =>
    rw [make_concept_info_eq company_data tag taxonomy cd hfc] at h
    cases h
    refine ⟨List.length_map _ _, fun i _hf hg => ?_⟩
    simp only [List.getElem_map]
    rfl

/-- Witness for C1 on the end-to-end scenario document. -/
theorem make_concept_info_aligned_witness :
    exampleConcept.facts.length = exampleConcept.filings.length ∧
    ∀ i (_hf : i < exampleConcept.facts.length)
      (hg : i < exampleConcept.filings.length),
      exampleConcept.facts[i] = make_fact "AssetsCurrent"
        exampleConcept.filings[i].value exampleConcept.filings[i].unit
        exampleConcept.filings[i].fiscal_year
        exampleConcept.filings[i].fiscal_period
        exampleConcept.filings[i].form_type
        exampleConcept.filings[i].date_filed :=
  make_concept_info_aligned exampleDoc "AssetsCurrent" "us-gaap"
    exampleConcept (by decide)

/-- C10: on a concept whose units mapping is empty or holds only empty
observation lists, the concept builder does not fail: it returns the
record carrying the tag, taxonomy, label and description, with facts and
filings both empty. -/
theorem make_concept_info_empty_units (company_data : CompanyData)
    (tag taxonomy : String) (cd : ConceptData)
    (hfind : findConcept company_data taxonomy tag = some cd)
    (hempty : ∀ p ∈ cd.units, p.2 = ([] : List Observation)) :
    make_concept_info company_data tag taxonomy =
      some { tag := tag, taxonomy := taxonomy, label := cd.label,
             description := cd.description, facts := [], filings := [] } := by
  rw [make_concept_info_eq company_data tag taxonomy cd hfind,
    filingsList_eq_nil cd.units hempty]
  rfl

/-- Witness for C10 on a document whose only concept has two units with no
observations. -/
theorem make_concept_info_empty_units_witness :
    make_concept_info emptyUnitsDoc "Assets" "us-gaap" =
      some { tag := "Assets", taxonomy := "us-gaap", label := "Assets",
             description := "All assets", facts := [], filings := [] } :=
  make_concept_info_empty_units emptyUnitsDoc "Assets" "us-gaap"
    { label := "Assets", description := "All assets",
      units := [("USD", []), ("EUR", [])] }
    (by decide) (by decide)

/-! Supporting lemmas about the document assembler. -/

theorem insertTagConcepts_eq (company_data : CompanyData) (tx : String) :
    ∀ (tags : List String) (acc : List (String × Concept)),
      (∀ t ∈ tags, (make_concept_info company_data t tx).isSome) →
      ∃ acc2, insertTagConcepts company_data tx tags acc = some acc2 ∧
        ∀ t, dictGet t acc2 =
          if t ∈ tags then make_concept_info company_data t tx
          else dictGet t acc := by
  intro tags
  induction tags with
  | nil =>
    intro acc _
    exact ⟨acc, rfl, fun t => by simp⟩
  | cons tag rest ih =>
    intro acc h
    obtain ⟨c, hc⟩ := Option.isSome_iff_exists.mp
      (h tag (List.mem_cons_self tag rest))
    obtain ⟨acc2, hrun, hchar⟩ :=
      ih (dictInsert tag c acc) (fun t ht => h t (List.mem_cons_of_mem tag ht))
    refine ⟨acc2, ?_, ?_⟩
    · simp [insertTagConcepts, hc, hrun]
    · intro t
      rw [hchar t]
      by_cases hmem : t ∈ rest
      · simp [hmem]
      · by_cases hteq : t = tag
        · subst hteq
          simp [hmem, dictGet_dictInsert_self, hc]
        · simp [hmem, hteq, dictGet_dictInsert_ne hteq]

theorem insertAllTags_eq (company_data : CompanyData) :
    ∀ (all_tags : List (String × List String)) (acc : List (String × Concept)),
      (∀ p ∈ all_tags, ∀ t ∈ p.2, (make_concept_info company_data t p.1).isSome) →
      ∃ out, insertAllTags company_data all_tags acc = some out ∧
        ∀ t, dictGet t out =
          match lastTaxFor t all_tags with
          | some tx => make_concept_info company_data t tx
          | none => dictGet t acc := by
  intro all_tags
  induction all_tags with
  | nil =>
    intro acc _
    exact ⟨acc, rfl, fun t => by simp [lastTaxFor]⟩
  | cons p rest ih =>
    obtain ⟨tx, tags⟩ := p
    intro acc h
    obtain ⟨acc2, hrun1, hchar1⟩ :=
      insertTagConcepts_eq company_data tx tags acc
        (fun t ht => h (tx, tags) (List.mem_cons_self (tx, tags) rest) t ht)
    obtain ⟨out, hrun2, hchar2⟩ :=
      ih acc2 (fun q hq t ht => h q (List.mem_cons_of_mem (tx, tags) hq) t ht)
    refine ⟨out, ?_, ?_⟩
    · simp [insertAllTags, hrun1, hrun2]
    · intro t
      rw [hchar2 t]
      cases hlast : lastTaxFor t rest with
      | some tx2 => simp [lastTaxFor, hlast]
      | none =>
        rw [hchar1 t]
        by_cases hmem : t ∈ tags
        · simp [lastTaxFor, hlast, hmem]
        · simp [lastTaxFor, hlast, hmem]

theorem lastTaxFor_isSome_iff (t : String)
    (all_tags : List (String × List String)) :
    (lastTaxFor t all_tags).isSome ↔ ∃ p ∈ all_tags, t ∈ p.2 := by
  induction all_tags with
  | nil => simp [lastTaxFor]
  | cons p rest ih =>
    simp only [lastTaxFor]
    cases hlast : lastTaxFor t rest with
    | some tx =>
      rw [hlast] at ih
      obtain ⟨q, hq, hqt⟩ := ih.mp rfl
      exact iff_of_true rfl ⟨q, List.mem_cons_of_mem p hq, hqt⟩
    | none =>
      rw [hlast] at ih
      have ih2 : ¬ ∃ q ∈ rest, t ∈ q.2 := fun hex => by simpa using ih.mpr hex
      by_cases hmem : t ∈ p.2
      · rw [if_pos hmem]
        exact iff_of_true rfl ⟨p, List.mem_cons_self p rest, hmem⟩
      · rw [if_neg hmem]
        refine iff_of_false (by simp) ?_
        rintro ⟨q, hq, hqt⟩
        rcases List.mem_cons.mp hq with rfl | hq2
        · exact hmem hqt
        · exact ih2 ⟨q, hq2, hqt⟩

theorem lastTaxFor_mem (t : String) :
    ∀ (all_tags : List (String × List String)) (tx : String),
      lastTaxFor t all_tags = some tx →
      ∃ tags, (tx, tags) ∈ all_tags ∧ t ∈ tags := by
  intro all_tags
  induction all_tags with
  | nil => intro tx h; cases h
  | cons p rest ih =>
    intro tx h
    simp only [lastTaxFor] at h
    cases hlast : lastTaxFor t rest with
    | some tx2 =>
      rw [hlast] at h
      obtain ⟨tags, htags, ht⟩ := ih tx2 hlast
      cases h
      exact ⟨tags, List.mem_cons_of_mem p htags, ht⟩
    | none =>
      rw [hlast] at h
      by_cases hmem : t ∈ p.2
      · rw [if_pos hmem] at h
        cases h
        exact ⟨p.2, by simp, hmem⟩
      · rw [if_neg hmem] at h
        cases h

/-- C3: for every raw document (with its dict invariant that taxonomy keys
are unique) and the tag mapping the tag enumerator produces from it, the
document assembler succeeds, its key set is exactly the union of the
enumerated tag strings, and on a tag enumerated under several taxonomies
the stored record is the one built from the taxonomy appearing last in
iteration order (last-write-wins). -/
theorem make_concept_filings_complete_lww (company_data : CompanyData)
    (facts : Facts) (all_tags : List (String × List String))
    (hfacts : dictGet "facts" company_data.entries = some facts)
    (hnd : (facts.map Prod.fst).Nodup)
    (henum : get_tags company_data = Except.ok all_tags) :
    ∃ out, make_concept_filings company_data all_tags = some out ∧
      (∀ t, (dictGet t out).isSome ↔ ∃ p ∈ all_tags, t ∈ p.2) ∧
      (∀ t tx, lastTaxFor t all_tags = some tx →
        dictGet t out = make_concept_info company_data t tx) := by
  have hat : facts.map (fun p => (p.1, p.2.map Prod.fst)) = all_tags := by
    unfold get_tags at henum
    rw [hfacts] at henum
    exact (Except.ok.injEq _ _).mp henum
  have hsome : ∀ p ∈ all_tags, ∀ t ∈ p.2,
      (make_concept_info company_data t p.1).isSome := by
    intro p hp t ht
    rw [← hat] at hp
    obtain ⟨q, hq, hpq⟩ := List.mem_map.mp hp
    subst hpq
    have h1 : dictGet q.1 facts = some q.2 := by
      apply dictGet_of_nodup hnd
      simpa using hq
    obtain ⟨cdata, hcd⟩ := Option.isSome_iff_exists.mp
      ((dictGet_isSome_iff t q.2).mpr ht)
    have hfc : findConcept company_data q.1 t = some cdata := by
      simp [findConcept, hfacts, h1, hcd]
    rw [make_concept_info_eq company_data t q.1 cdata hfc]
    rfl
  obtain ⟨out, hrun, hchar⟩ := insertAllTags_eq company_data all_tags [] hsome
  refine ⟨out, hrun, ?_, ?_⟩
  · intro t
    rw [hchar t]
    cases hlast : lastTaxFor t all_tags with
    | some tx =>
      obtain ⟨tags, htags, ht⟩ := lastTaxFor_mem t all_tags tx hlast
      exact iff_of_true (hsome (tx, tags) htags t ht) ⟨(tx, tags), htags, ht⟩
    | none =>
      refine iff_of_false (by simp [dictGet]) ?_
      rintro ⟨p, hp, ht⟩
      have := (lastTaxFor_isSome_iff t all_tags).mpr ⟨p, hp, ht⟩
      rw [hlast] at this
      cases this
  · intro t tx hlast
    rw [hchar t, hlast]

/-- Witness for C3 on the two-taxonomy collision document: the assembler
succeeds and the record stored for T is the one built from tax2. -/
theorem make_concept_filings_complete_lww_witness :
    ∃ out, make_concept_filings twoTaxDoc
        [("tax1", ["T"]), ("tax2", ["T"])] = some out ∧
      (∀ t, (dictGet t out).isSome ↔
        ∃ p ∈ [("tax1", ["T"]), ("tax2", ["T"])], t ∈ p.2) ∧
      (∀ t tx, lastTaxFor t [("tax1", ["T"]), ("tax2", ["T"])] = some tx →
        dictGet t out = make_concept_info twoTaxDoc t tx) :=
  make_concept_filings_complete_lww twoTaxDoc twoTaxFacts
    [("tax1", ["T"]), ("tax2", ["T"])] rfl (by decide) rfl

end SECsearch
